import Mathlib

/-!
# A verification of the `clapper` command-line argument parser

This file is a shallow embedding, in Lean 4, of the Go package `clapper`
(file `clapper.go`): a getopt(3)-style argument-resolution engine.  Go
strings are modelled as Lean `String`s (viewed as lists of characters; the
byte/rune distinction is immaterial for the ASCII tokens the package
manipulates), Go maps are modelled as insertion-ordered association lists,
and Go's multiple-return-value functions return tuples.  Functions keep the
names of the Go functions they embed.  Pointer mutation during schema
construction (`SetValidVals` mutating the entry stored in a command's
table) is modelled by re-inserting the updated record at its key.

A Go nil-map-lookup followed by a field access is a runtime panic; the one
place this can occur (a short-flag alias whose long name is missing from
the flag table, impossible through the public API) is modelled by the
distinguished error `ErrorNilFlagAccess`.
-/

namespace Clapper

/-! ## String helpers (embedding of the `strings` stdlib calls used) -/

/-- Embedding of Go `strings.HasPrefix`. -/
def goHasPrefix (s pre : String) : Bool :=
  pre.data.isPrefixOf s.data

/-- Embedding of Go `strings.HasSuffix`. -/
def goHasSuffix (s suf : String) : Bool :=
  suf.data.isSuffixOf s.data

/-- Embedding of Go `strings.TrimLeft s cutset`: remove the longest leading
run of characters drawn from `cutset` (a character *set*, not a prefix). -/
def goTrimLeftCutset (s cutset : String) : String :=
  String.mk (s.data.dropWhile (fun c => cutset.data.contains c))

/-- Embedding of Go `strings.TrimRight s cutset`. -/
def goTrimRightCutset (s cutset : String) : String :=
  String.mk ((s.data.reverse.dropWhile (fun c => cutset.data.contains c)).reverse)

/-- Embedding of Go `strings.Trim s cutset`. -/
def goTrimCutset (s cutset : String) : String :=
  goTrimRightCutset (goTrimLeftCutset s cutset) cutset

/-- Embedding of Go `strings.ReplaceAll value " " ""` (`removeWhitespaces`). -/
def removeWhitespaces (value : String) : String :=
  String.mk (value.data.filter (fun c => c ≠ ' '))

/-- Embedding of `trimWhitespaces`: Go `strings.Trim value ""`.  The cutset
is the empty string, so this is the identity in Go; it is embedded
literally. -/
def trimWhitespaces (value : String) : String :=
  goTrimCutset value ""

/-- Splitting a character list on `'='`, following Go `strings.Split value "="`. -/
def splitEqList : List Char → List (List Char)
  | [] => [[]]
  | c :: rest =>
    match splitEqList rest with
    | [] => [[c]]
    | h :: t => if c = '=' then [] :: h :: t else (c :: h) :: t

/-- Embedding of Go `strings.Split value "="`. -/
def goSplitEq (s : String) : List String :=
  (splitEqList s.data).map String.mk

/-- Go slicing `s[:1]` on a nonempty string (first character; the short-flag
names involved are ASCII, so byte = character). -/
def takeFirstChar (s : String) : String :=
  String.mk (s.data.take 1)

/-! ## Association lists: the model of Go maps -/

/-- Lookup in an association list (Go map indexing with the `ok` flag). -/
def mapLookup {α : Type} (m : List (String × α)) (k : String) : Option α :=
  (m.find? (fun p => p.1 = k)).map Prod.snd

/-- Insertion into an association list (Go map assignment): replaces the
entry in place if the key is present, appends otherwise. -/
def mapInsert {α : Type} : List (String × α) → String → α → List (String × α)
  | [], k, v => [(k, v)]
  | (k', v') :: rest, k, v =>
    if k' = k then (k, v) :: rest else (k', v') :: mapInsert rest k v

/-! ## Errors -/

/-- The four error kinds of `clapper`, plus a marker for the Go runtime
panic that a dangling short-flag alias would cause (`flag.IsBoolean` on a
nil `*FlagCommand`). -/
inductive ClapError where
  | ErrorUnknownCommand (Name : String)
  | ErrorUnknownFlag (Name : String)
  | ErrorUnsupportedFlag (Name : String)
  | ErrorUnsupportedValue (Name : String) (Value : String)
  | ErrorNilFlagAccess (Name : String)
deriving DecidableEq, Repr

instance exceptDecEq {ε α : Type} [DecidableEq ε] [DecidableEq α] :
    DecidableEq (Except ε α)
  | .ok a, .ok b =>
    if h : a = b then .isTrue (congrArg Except.ok h)
    else .isFalse (fun hh => h (Except.ok.inj hh))
  | .error a, .error b =>
    if h : a = b then .isTrue (congrArg Except.error h)
    else .isFalse (fun hh => h (Except.error.inj hh))
  | .ok _, .error _ => .isFalse (fun hh => Except.noConfusion hh)
  | .error _, .ok _ => .isFalse (fun hh => Except.noConfusion hh)

/-! ## Data model -/

/-- Go `FlagCommand`: the registered description of one flag. -/
structure FlagCommand where
  Name : String
  ShortName : String
  IsBoolean : Bool
  IsInverted : Bool
  DefaultValue : String
  Value : String
  /-- Go `ValidVals map[string]bool`: `none` models the nil map. -/
  ValidVals : Option (List String)
deriving DecidableEq, Repr

/-- Go `Flag`: a resolved flag in the parse result. -/
structure Flag where
  Name : String
  IsBoolean : Bool
  Value : String
deriving DecidableEq, Repr

/-- Go `ArgCommand`: the registered description of one positional argument. -/
structure ArgCommand where
  Name : String
  IsVariadic : Bool
  DefaultValue : String
  Value : String
  ValidVals : Option (List String)
deriving DecidableEq, Repr

/-- Go `Arg`: a resolved positional argument in the parse result. -/
structure Arg where
  Name : String
  IsVariadic : Bool
  Value : String
deriving DecidableEq, Repr

/-- Go `CommandConfig`: the schema of one command. -/
structure CommandConfig where
  Name : String
  Flags : List (String × FlagCommand)
  flagsShort : List (String × String)
  Args : List (String × ArgCommand)
  ArgNames : List String
deriving DecidableEq, Repr

/-- Go `CommandParsed`: the result of a successful parse. -/
structure CommandParsed where
  Name : String
  Flags : List (String × Flag)
  Args : List (String × Arg)
deriving DecidableEq, Repr

/-- Go `Registry`: the command-name → `CommandConfig` map. -/
abbrev Registry := List (String × CommandConfig)

/-! ## Token classifiers -/

/-- Go `isFlag`: length at least 2 and a leading dash. -/
def isFlag (value : String) : Bool :=
  decide (2 ≤ value.data.length) && goHasPrefix value "-"

/-- Go `isShortFlag`: a flag of exactly 2 characters not starting with `--`. -/
def isShortFlag (value : String) : Bool :=
  isFlag value && decide (value.data.length = 2) && !goHasPrefix value "--"

/-- Go `isInvertedFlag`: returns the (Bool, trimmed-name) pair of the Go
function.  Note the Go `strings.TrimLeft` cutset semantics. -/
def isInvertedFlag (value : String) : Bool × String :=
  if isFlag value && goHasPrefix value "--no-" then
    (true, goTrimLeftCutset value "--no-")
  else
    (false, goTrimLeftCutset value "--")

/-- Go `isUnsupportedFlag`: malformed dash structure. -/
def isUnsupportedFlag (value : String) : Bool :=
  if 2 ≤ value.data.length then
    if value.data.length = 2 then
      !goHasPrefix value "-" || goHasPrefix value "--"
    else
      !goHasPrefix value "--" || goHasPrefix value "---"
  else
    false

/-- Go `isVariadicArgument`: non-flag value ending in `...`; the name is
Go `strings.TrimRight value "..."`. -/
def isVariadicArgument (value : String) : Bool × String :=
  if !isFlag value && goHasSuffix value "..." then
    (true, goTrimRightCutset value "...")
  else
    (false, "")

/-- Go `formatCommandValues`: split flag-shaped tokens on `=` and drop the
segments that are empty after trimming spaces; keep positional tokens
verbatim. -/
def formatCommandValues (values : List String) : List String :=
  (values.map (fun value =>
    if isFlag value then
      (goSplitEq value).filter (fun part => goTrimCutset part " " ≠ "")
    else [value])).flatten

/-- Go `nextValue`: head and tail of the token list, with `""` for the empty list. -/
def nextValue (slice : List String) : String × List String :=
  match slice with
  | [] => ("", [])
  | v :: rest => (v, rest)

/-- Go `isRootCommand`: the root-vs-subcommand disambiguation rule. -/
def isRootCommand (values : List String) (registry : Registry) : Bool :=
  match mapLookup registry "" with
  | none => false
  | some rootCommandConfig =>
    match values with
    | [] => true
    | v0 :: _ =>
      if isFlag v0 then true
      else decide (0 < rootCommandConfig.Args.length) && (mapLookup registry v0).isNone

/-! ## Registration (`Register`, `AddArg`, `AddFlag` and the `WithValid` variants) -/

/-- Go `Register`: look up or create a command entry (returns the config, the
pre-existence bit, and the updated registry). -/
def Register (registry : Registry) (name : String) : CommandConfig × Bool × Registry :=
  let commandName := removeWhitespaces name
  match mapLookup registry commandName with
  | some cc => (cc, true, registry)
  | none =>
    let commandConfig : CommandConfig := ⟨commandName, [], [], [], []⟩
    (commandConfig, false, mapInsert registry commandName commandConfig)

/-- The key under which `AddArg` stores an argument: whitespace removed,
then the `...` suffix stripped for a variadic argument. -/
def argKey (name : String) : String :=
  let n := removeWhitespaces name
  if (isVariadicArgument n).1 then (isVariadicArgument n).2 else n

/-- Go `CommandConfig.AddArg`. -/
def CommandConfig.AddArg (commandConfig : CommandConfig) (name defaultValue : String) :
    ArgCommand × Bool × CommandConfig :=
  let key := argKey name
  let isVar := (isVariadicArgument (removeWhitespaces name)).1
  match mapLookup commandConfig.Args key with
  | some a => (a, true, commandConfig)
  | none =>
    let arg : ArgCommand := ⟨key, isVar, trimWhitespaces defaultValue, "", none⟩
    (arg, false,
      { commandConfig with
          Args := mapInsert commandConfig.Args key arg,
          ArgNames := commandConfig.ArgNames ++ [key] })

/-- Go `ArgCommand.SetValidVals`: an empty list sets the nil map. -/
def ArgCommand.SetValidVals (a : ArgCommand) (validVals : List String) : ArgCommand :=
  if validVals = [] then { a with ValidVals := none }
  else { a with ValidVals := some validVals }

/-- Go `FlagCommand.SetValidVals`. -/
def FlagCommand.SetValidVals (f : FlagCommand) (validVals : List String) : FlagCommand :=
  if validVals = [] then { f with ValidVals := none }
  else { f with ValidVals := some validVals }

/-- Go `CommandConfig.AddArgWithValid`: `AddArg`, then mutate (through the Go
pointer) the stored argument's valid-value set. -/
def CommandConfig.AddArgWithValid (commandConfig : CommandConfig)
    (name defaultValue : String) (validVals : List String) :
    ArgCommand × Bool × CommandConfig :=
  match commandConfig.AddArg name defaultValue with
  | (a, exist, cfg) =>
    let a2 := a.SetValidVals validVals
    (a2, exist, { cfg with Args := mapInsert cfg.Args (argKey name) a2 })

/-- The key under which `AddFlag` stores a flag: for a boolean flag whose
raw name starts with `no-`, Go `strings.TrimLeft name "no-"` (cutset
semantics); otherwise the name with whitespace removed. -/
def flagKey (name : String) (isBool : Bool) : String :=
  if isBool && goHasPrefix name "no-" then goTrimLeftCutset name "no-"
  else removeWhitespaces name

/-- Go `CommandConfig.AddFlag`.  The inverted-flag transformation (forced
boolean, default `"true"`, short name discarded) applies only on the
`isBool` branch of the Go code, and tests the *raw* `name` for the `no-`
prefix. -/
def CommandConfig.AddFlag (commandConfig : CommandConfig)
    (name shortName : String) (isBool : Bool) (defaultValue : String) :
    FlagCommand × Bool × CommandConfig :=
  let key := flagKey name isBool
  let isInvert := isBool && goHasPrefix name "no-"
  let short0 := removeWhitespaces shortName
  let short1 := if short0 ≠ "" then takeFirstChar short0 else short0
  let short := if isInvert then "" else short1
  let dflt :=
    if isBool then (if goHasPrefix name "no-" then "true" else "false")
    else trimWhitespaces defaultValue
  match mapLookup commandConfig.Flags key with
  | some f => (f, true, commandConfig)
  | none =>
    let flag : FlagCommand := ⟨key, short, isBool, isInvert, dflt, "", none⟩
    (flag, false,
      { commandConfig with
          Flags := mapInsert commandConfig.Flags key flag,
          flagsShort :=
            if 0 < short.data.length then mapInsert commandConfig.flagsShort short key
            else commandConfig.flagsShort })

/-- Go `CommandConfig.AddFlagWithValid`. -/
def CommandConfig.AddFlagWithValid (commandConfig : CommandConfig)
    (name shortName : String) (isBool : Bool) (defaultValue : String)
    (validVals : List String) : FlagCommand × Bool × CommandConfig :=
  match commandConfig.AddFlag name shortName isBool defaultValue with
  | (f, exist, cfg) =>
    let f2 := f.SetValidVals validVals
    (f2, exist, { cfg with Flags := mapInsert cfg.Flags (flagKey name isBool) f2 })

/-! ## Validation and value storage -/

/-- Go `FlagCommand.Validate`: membership test when the valid-value map is
non-nil and nonempty; vacuously true otherwise. -/
def FlagCommand.Validate (f : FlagCommand) (v : String) : Bool :=
  match f.ValidVals with
  | some l => if 0 < l.length then l.contains v else true
  | none => true

/-- Go `FlagCommand.Store`. -/
def FlagCommand.Store (f : FlagCommand) (v : String) : Flag :=
  ⟨f.Name, f.IsBoolean, v⟩

/-- Go `FlagCommand.StoreDefault`. -/
def FlagCommand.StoreDefault (f : FlagCommand) : Flag :=
  ⟨f.Name, f.IsBoolean, f.DefaultValue⟩

/-- Go `ArgCommand.Validate`. -/
def ArgCommand.Validate (a : ArgCommand) (v : String) : Bool :=
  match a.ValidVals with
  | some l => if 0 < l.length then l.contains v else true
  | none => true

/-- Go `ArgCommand.Store`. -/
def ArgCommand.Store (a : ArgCommand) (v : String) : Arg :=
  ⟨a.Name, a.IsVariadic, v⟩

/-- Go `ArgCommand.StoreDefault`. -/
def ArgCommand.StoreDefault (a : ArgCommand) : Arg :=
  ⟨a.Name, a.IsVariadic, a.DefaultValue⟩

/-! ## The resolver (`Parse`) -/

/-- The flag-lookup block of `Parse`'s loop body: short form through the
alias table, `--no-` form through the inverted lookup, long form through
the plain lookup with the inverted-flag exclusion.  `.ok none` models the
nil `*FlagCommand` a dangling short alias produces. -/
def lookupFlag (commandConfig : CommandConfig) (value : String) :
    Except ClapError (Option FlagCommand) :=
  let name := goTrimLeftCutset value "-"
  if isShortFlag value then
    match mapLookup commandConfig.flagsShort name with
    | none => .error (.ErrorUnknownFlag value)
    | some flagName => .ok (mapLookup commandConfig.Flags flagName)
  else
    let p := isInvertedFlag value
    if p.1 then
      match mapLookup commandConfig.Flags p.2 with
      | none => .error (.ErrorUnknownFlag value)
      | some flag => .ok (some flag)
    else
      match mapLookup commandConfig.Flags p.2 with
      | none => .error (.ErrorUnknownFlag value)
      | some flag =>
        if flag.IsInverted then .error (.ErrorUnknownFlag value)
        else .ok (some flag)

/-- The outcome of visiting one declared argument slot while placing a
positional token: stop the scan with an updated store (the `break` after an
assignment), abort with an error, or move on to the next slot. -/
inductive ArgStepResult where
  | done (store : List (String × Arg))
  | fail (e : ClapError)
  | next (store : List (String × Arg))
deriving DecidableEq, Repr

/-- One iteration of the positional-argument scan (`for index, argName :=
range commandConfig.ArgNames`): validate the token against this slot, then
assign if the slot is unset, append if the slot is the last declared and
variadic, and otherwise move on.  `isLast` is `index == len(ArgNames)-1`. -/
def argStep (commandConfig : CommandConfig) (value argName : String) (isLast : Bool)
    (store : List (String × Arg)) : ArgStepResult :=
  match mapLookup commandConfig.Args argName with
  | none => .fail (.ErrorNilFlagAccess argName)
  | some varg =>
    if !varg.Validate value then .fail (.ErrorUnsupportedValue varg.Name value)
    else
      match mapLookup store varg.Name with
      | none =>
        let arg : Arg := ⟨varg.Name, varg.IsVariadic, ""⟩
        -- a fresh entry has the empty value, so the token is assigned at once
        .done (mapInsert (mapInsert store varg.Name arg) varg.Name { arg with Value := value })
      | some arg =>
        if arg.Value = "" then .done (mapInsert store varg.Name { arg with Value := value })
        else if isLast && arg.IsVariadic then
          .next (mapInsert store varg.Name { arg with Value := arg.Value ++ "," ++ value })
        else .next store

/-- The positional-argument block of `Parse`'s loop body: scan the declared
argument names in order, stepping with `argStep`. -/
def argLoop (commandConfig : CommandConfig) (value : String) :
    List String → List (String × Arg) → Except ClapError (List (String × Arg))
  | [], store => .ok store
  | argName :: restNames, store =>
    match argStep commandConfig value argName restNames.isEmpty store with
    | .fail e => .error e
    | .done store2 => .ok store2
    | .next store2 => argLoop commandConfig value restNames store2

/-- The outcome of one iteration of `Parse`'s token loop: break (the
popped token was empty), abort with an error, continue with the remaining
tokens, or continue with the remaining tokens minus the value consumed by
a non-boolean flag. -/
inductive StepResult where
  | halt (storeFlags : List (String × Flag)) (storeArgs : List (String × Arg))
  | fail (e : ClapError)
  | cont1 (storeFlags : List (String × Flag)) (storeArgs : List (String × Arg))
  | cont2 (storeFlags : List (String × Flag)) (storeArgs : List (String × Arg))
deriving DecidableEq, Repr

/-- The body of `Parse`'s token loop for a popped token `value` with
remaining tokens `rest`: break on the empty token; resolve and store a
flag (a non-boolean flag consumes the next token only when it exists and
is not flag-shaped: outcome `cont2`); otherwise run the positional
scan. -/
def stepToken (commandConfig : CommandConfig) (value : String) (rest : List String)
    (storeFlags : List (String × Flag)) (storeArgs : List (String × Arg)) : StepResult :=
  if value.data.length = 0 then .halt storeFlags storeArgs
  else if isFlag value then
    match lookupFlag commandConfig value with
    | .error e => .fail e
    | .ok none => .fail (.ErrorNilFlagAccess value)
    | .ok (some flag) =>
      if flag.IsBoolean then
        if flag.IsInverted then
          .cont1 (mapInsert storeFlags flag.Name (flag.Store "false")) storeArgs
        else
          .cont1 (mapInsert storeFlags flag.Name (flag.Store "true")) storeArgs
      else
        match rest with
        | [] => .cont1 storeFlags storeArgs
        | nv :: _ =>
          if nv.data.length ≠ 0 && !isFlag nv then
            if !flag.Validate nv then .fail (.ErrorUnsupportedValue flag.Name nv)
            else .cont2 (mapInsert storeFlags flag.Name (flag.Store nv)) storeArgs
          else .cont1 storeFlags storeArgs
  else
    match argLoop commandConfig value commandConfig.ArgNames storeArgs with
    | .error e => .fail e
    | .ok storeArgs2 => .cont1 storeFlags storeArgs2

/-- The token-processing loop of `Parse`.  The loop pops a token with
`nextValue` and stops as soon as the popped token is the empty string —
which happens both when the tokens are exhausted and when an actual
empty-string token is popped.  A `cont2` outcome skips the consumed value
token (`cont2` is only produced when `rest` is nonempty). -/
def parseLoop (commandConfig : CommandConfig) :
    List String → List (String × Flag) → List (String × Arg) →
    Except ClapError (List (String × Flag) × List (String × Arg))
  | [], storeFlags, storeArgs => .ok (storeFlags, storeArgs)
  | value :: rest, storeFlags, storeArgs =>
    match stepToken commandConfig value rest storeFlags storeArgs with
    | .halt sf sa => .ok (sf, sa)
    | .fail e => .error e
    | .cont1 sf sa => parseLoop commandConfig rest sf sa
    | .cont2 sf sa =>
      match rest with
      | [] => .ok (sf, sa)
      | _ :: nrest => parseLoop commandConfig nrest sf sa

/-- The defaulting pass (`for k := range ... { if missing, StoreDefault }`),
generic in the declared-definition type and its `StoreDefault`. -/
def applyDefaults {α β : Type} (storeDefault : α → β)
    (cfg : List (String × α)) (store : List (String × β)) : List (String × β) :=
  cfg.foldl
    (fun st p => if (mapLookup st p.1).isSome then st else mapInsert st p.1 (storeDefault p.2))
    store

/-- The defaulting pass over flags: insert `StoreDefault` for every
declared flag missing from the store. -/
def applyFlagDefaults (cfgFlags : List (String × FlagCommand))
    (store : List (String × Flag)) : List (String × Flag) :=
  applyDefaults FlagCommand.StoreDefault cfgFlags store

/-- The defaulting pass over arguments. -/
def applyArgDefaults (cfgArgs : List (String × ArgCommand))
    (store : List (String × Arg)) : List (String × Arg) :=
  applyDefaults ArgCommand.StoreDefault cfgArgs store

/-- The command name `Parse` selects: `""` when `isRootCommand` holds,
otherwise the first token (`""` for an empty list). -/
def selectedName (registry : Registry) (values : List String) : String :=
  if isRootCommand values registry then "" else (nextValue values).1

/-- The tokens `Parse` processes after command selection. -/
def remainingTokens (registry : Registry) (values : List String) : List String :=
  if isRootCommand values registry then values else (nextValue values).2

/-- The normalized token stream: `formatCommandValues` of the remaining
tokens. -/
def normalizedTokens (registry : Registry) (values : List String) : List String :=
  formatCommandValues (remainingTokens registry values)

/-- The malformed-flag scan: first flag-shaped token with unsupported dash
structure. -/
def unsupportedScan (toks : List String) : Option String :=
  toks.find? (fun val => isFlag val && isUnsupportedFlag val)

/-- Go `Registry.Parse`: command selection, normalization, the malformed-flag
scan, registry lookup, the token loop, and the defaulting pass. -/
def Parse (registry : Registry) (values : List String) :
    Except ClapError CommandParsed :=
  match unsupportedScan (normalizedTokens registry values) with
  | some val => .error (.ErrorUnsupportedFlag val)
  | none =>
    match mapLookup registry (selectedName registry values) with
    | none => .error (.ErrorUnknownCommand (selectedName registry values))
    | some commandConfig =>
      match parseLoop commandConfig (normalizedTokens registry values) [] [] with
      | .error e => .error e
      | .ok (storeFlags, storeArgs) =>
        .ok ⟨commandConfig.Name,
             applyFlagDefaults commandConfig.Flags storeFlags,
             applyArgDefaults commandConfig.Args storeArgs⟩

/-! ## Helper lemmas about the map model -/

theorem mapLookup_nil {α : Type} (k : String) :
    mapLookup ([] : List (String × α)) k = none := rfl

theorem mapLookup_cons {α : Type} (k' : String) (v' : α) (rest : List (String × α))
    (k : String) :
    mapLookup ((k', v') :: rest) k = if k' = k then some v' else mapLookup rest k := by
  by_cases h : k' = k <;> simp [mapLookup, List.find?_cons, h]

theorem mapLookup_mapInsert_self {α : Type} (m : List (String × α)) (k : String) (v : α) :
    mapLookup (mapInsert m k v) k = some v := by
  induction m with
  | nil => simp [mapInsert, mapLookup_cons]
  | cons p rest ih =>
    obtain ⟨a, b⟩ := p
    by_cases h : a = k
    · simp [mapInsert, h, mapLookup_cons]
    · simpa [mapInsert, h, mapLookup_cons] using ih

theorem mapLookup_mapInsert_ne {α : Type} (m : List (String × α)) (k k' : String) (v : α)
    (h : k ≠ k') :
    mapLookup (mapInsert m k v) k' = mapLookup m k' := by
  induction m with
  | nil => simp [mapInsert, mapLookup_nil, mapLookup_cons, h]
  | cons p rest ih =>
    obtain ⟨a, b⟩ := p
    by_cases hp : a = k
    · subst hp
      simp [mapInsert, mapLookup_cons, h]
    · simp [mapInsert, hp, mapLookup_cons, ih]

theorem mapInsert_mapInsert_same {α : Type} (m : List (String × α)) (k : String) (v1 v2 : α) :
    mapInsert (mapInsert m k v1) k v2 = mapInsert m k v2 := by
  induction m with
  | nil => simp [mapInsert]
  | cons p rest ih =>
    obtain ⟨a, b⟩ := p
    by_cases hp : a = k
    · simp [mapInsert, hp]
    · simp [mapInsert, hp, ih]

theorem mapInsert_length_of_isSome {α : Type} (m : List (String × α)) (k : String) (v : α)
    (h : (mapLookup m k).isSome = true) :
    (mapInsert m k v).length = m.length := by
  induction m with
  | nil => simp [mapLookup_nil] at h
  | cons p rest ih =>
    obtain ⟨a, b⟩ := p
    by_cases hp : a = k
    · simp [mapInsert, hp]
    · rw [mapLookup_cons] at h
      simp only [hp, if_false] at h
      simp [mapInsert, hp, ih h]

/-! ## Helper lemmas about the defaulting pass -/

theorem applyDefaults_preserve {α β : Type} (storeDefault : α → β)
    (cfg : List (String × α)) (store : List (String × β)) (k : String) (v : β)
    (h : mapLookup store k = some v) :
    mapLookup (applyDefaults storeDefault cfg store) k = some v := by
  induction cfg generalizing store with
  | nil => simpa [applyDefaults] using h
  | cons p rest ih =>
    simp only [applyDefaults, List.foldl_cons] at *
    by_cases hs : (mapLookup store p.1).isSome = true
    · rw [if_pos hs]
      exact ih store h
    · rw [if_neg hs]
      apply ih
      by_cases hk : p.1 = k
      · subst hk; simp [h] at hs
      · rw [mapLookup_mapInsert_ne _ _ _ _ hk]; exact h

theorem applyDefaults_missing {α β : Type} (storeDefault : α → β)
    (cfg : List (String × α)) (store : List (String × β)) (k : String) (a : α)
    (hc : mapLookup cfg k = some a) (hs : mapLookup store k = none) :
    mapLookup (applyDefaults storeDefault cfg store) k = some (storeDefault a) := by
  induction cfg generalizing store with
  | nil => simp [mapLookup_nil] at hc
  | cons p rest ih =>
    obtain ⟨a', b'⟩ := p
    rw [mapLookup_cons] at hc
    simp only [applyDefaults, List.foldl_cons] at *
    by_cases hk : a' = k
    · rw [if_pos hk] at hc
      obtain rfl : b' = a := Option.some.inj hc
      subst hk
      rw [hs]
      simp only [Option.isSome_none, Bool.false_eq_true, if_false]
      exact applyDefaults_preserve _ _ _ _ _ (mapLookup_mapInsert_self _ _ _)
    · rw [if_neg hk] at hc
      by_cases hps : (mapLookup store a').isSome = true
      · rw [if_pos hps]
        exact ih store hc hs
      · rw [if_neg hps]
        exact ih _ hc (by rw [mapLookup_mapInsert_ne _ _ _ _ hk]; exact hs)

theorem applyDefaults_total {α β : Type} (storeDefault : α → β)
    (cfg : List (String × α)) (store : List (String × β)) (k : String) (a : α)
    (hc : mapLookup cfg k = some a) :
    ∃ g, mapLookup (applyDefaults storeDefault cfg store) k = some g ∧
      (mapLookup store k = none → g = storeDefault a) := by
  by_cases hcase : mapLookup store k = none
  · exact ⟨storeDefault a, applyDefaults_missing _ _ _ _ _ hc hcase, fun _ => rfl⟩
  · obtain ⟨v, hv⟩ := Option.ne_none_iff_exists'.mp hcase
    exact ⟨v, applyDefaults_preserve _ _ _ _ _ hv, fun h => absurd h hcase⟩

/-- Case analysis on an `Except` value through equations. -/
theorem except_eq_error_or_ok {ε α : Type} (x : Except ε α) :
    (∃ e, x = .error e) ∨ (∃ a, x = .ok a) := by
  cases x with
  | error e => exact Or.inl ⟨e, rfl⟩
  | ok a => exact Or.inr ⟨a, rfl⟩

/-! ## Concrete schemas used by the witnesses and counterexamples -/

/-- The Scenario A command: `info` with arguments `category` (default
`"manager"`, valid `{manager, student}`), `username` (default `""`),
variadic `subjects`; flags `verbose` (boolean, short `v`), `version`
(non-boolean, short `V`, default `"1.0.1"`), `output` (non-boolean, short
`o`, default `"./"`), and the inverted `no-clean`. -/
def scenarioACfg : CommandConfig :=
  let c := (Register [] "info").1
  let c := (c.AddArgWithValid "category" "manager" ["manager", "student"]).2.2
  let c := (c.AddArg "username" "").2.2
  let c := (c.AddArg "subjects..." "").2.2
  let c := (c.AddFlag "verbose" "v" true "").2.2
  let c := (c.AddFlag "version" "V" false "1.0.1").2.2
  let c := (c.AddFlag "output" "o" false "./").2.2
  let c := (c.AddFlag "no-clean" "" true "").2.2
  c

/-- The Scenario A registry: the single command `info`. -/
def scenarioAReg : Registry := [("info", scenarioACfg)]

/-- A command `c` with arguments `a` (valid set `{x}`) and `b`
(unrestricted). -/
def cfgTwoArgs : CommandConfig :=
  let c := (Register [] "c").1
  let c := (c.AddArgWithValid "a" "" ["x"]).2.2
  (c.AddArg "b" "").2.2

def regTwoArgs : Registry := [("c", cfgTwoArgs)]

/-- An empty command `c` (no flags, no arguments). -/
def cfgBare : CommandConfig := (Register [] "c").1

/-- A registry holding only a root command with no arguments and no flags. -/
def regRootOnly : Registry := [("", (Register [] "").1)]

/-- A command `c` with the single boolean flag `verbose` (short `v`). -/
def cfgVerbose : CommandConfig :=
  ((Register [] "c").1.AddFlag "verbose" "v" true "").2.2

def regVerbose : Registry := [("c", cfgVerbose)]

/-- A command `c` with a *non-inverted, non-boolean* flag whose long name
is `no-x` and whose short alias is `n`. -/
def cfgNoX : CommandConfig :=
  ((Register [] "c").1.AddFlag "no-x" "n" false "").2.2

def regNoX : Registry := [("c", cfgNoX)]

/-- A command `c` whose argument `a` was registered through
`AddArgWithValid` with valid set `{x}`. -/
def cfgValidA : CommandConfig :=
  ((Register [] "c").1.AddArgWithValid "a" "" ["x"]).2.2

/-- A command `c` with a flag and an argument whose default values lie
outside their declared valid-value sets. -/
def cfgBadDefaults : CommandConfig :=
  let c := (Register [] "c").1
  let c := (c.AddFlagWithValid "mode" "m" false "zz" ["a", "b"]).2.2
  (c.AddArgWithValid "cat" "yy" ["p"]).2.2

def regBadDefaults : Registry := [("c", cfgBadDefaults)]

/-! ## The claims -/

/-- C1:  For the Scenario A schema, `Parse` on
`["info","student","-V","-v","--output","./opt/dir","--no-clean"]`
succeeds and yields command name `"info"` with `category="student"`,
`username=""`, `subjects=""`, `verbose="true"`, `version="1.0.1"` (the
token after `-V` is flag-shaped, so no value is consumed and the default
applies), `output="./opt/dir"`, and `clean="false"`. -/
theorem claim_C1 :
    Parse scenarioAReg ["info", "student", "-V", "-v", "--output", "./opt/dir", "--no-clean"] =
      .ok ⟨"info",
           [("verbose", ⟨"verbose", true, "true"⟩),
            ("output", ⟨"output", false, "./opt/dir"⟩),
            ("clean", ⟨"clean", true, "false"⟩),
            ("version", ⟨"version", false, "1.0.1"⟩)],
           [("category", ⟨"category", false, "student"⟩),
            ("username", ⟨"username", false, ""⟩),
            ("subjects", ⟨"subjects", true, ""⟩)]⟩ := by
  decide

/-- C2, counterexample:  On the command `c` with arguments `a` (valid
set `{x}`) and `b` (unrestricted), the token `"x"` fills slot `a`; the next
positional token `"y"` should, per the claim, go to slot `b` without being
checked against `a`'s valid set — but `Parse` returns Unsupported-Value
naming the already-filled slot `a`. -/
theorem claim_C2_counterexample :
    Parse regTwoArgs ["c", "x"] =
      .ok ⟨"c", [], [("a", ⟨"a", false, "x"⟩), ("b", ⟨"b", false, ""⟩)]⟩ ∧
    Parse regTwoArgs ["c", "x", "y"] = .error (.ErrorUnsupportedValue "a" "y") := by
  exact ⟨by decide, by decide⟩

/-- C3, counterexample:  On the empty registry (root not registered),
`Parse ["---version"]` consumes `"---version"` as the command name and
returns Unknown-Command, not Unsupported-Flag. -/
theorem claim_C3_counterexample :
    Parse ([] : Registry) ["---version"] = .error (.ErrorUnknownCommand "---version") := by
  decide

/-- C6, counterexample:  Root registered without arguments; the first
token `"zzz"` is not a registered command, so it is selected as the command
name and is absent from the registry — yet `Parse` reports the malformed
flag `"---x"` of the remaining tokens instead of Unknown-Command. -/
theorem claim_C6_counterexample :
    isRootCommand ["zzz", "---x"] regRootOnly = false ∧
    selectedName regRootOnly ["zzz", "---x"] = "zzz" ∧
    mapLookup regRootOnly "zzz" = none ∧
    Parse regRootOnly ["zzz", "---x"] = .error (.ErrorUnsupportedFlag "---x") := by
  exact ⟨by decide, by decide, by decide, by decide⟩

/-- C4, counterexample:  `AddFlag "no-note" "x" false "d"`: because
`isBool = false`, no inversion happens — the flag is stored under
`"no-note"` itself, non-boolean, non-inverted, with short name `"x"` and
default `"d"`; nothing is stored under `"note"`.  And with `isBool = true`
the stored name is Go `TrimLeft("no-note", "no-")` = `"te"`, not `"note"`. -/
theorem claim_C4_counterexample :
    (cfgBare.AddFlag "no-note" "x" false "d").1 = ⟨"no-note", "x", false, false, "d", "", none⟩ ∧
    mapLookup (cfgBare.AddFlag "no-note" "x" false "d").2.2.Flags "note" = none ∧
    (cfgBare.AddFlag "no-note" "z" true "d").1.Name = "te" := by
  exact ⟨by decide, by decide, by decide⟩

/-- C5, counterexample:  Re-registering `a` through `AddArgWithValid`
with a different valid-value set signals pre-existence but *overwrites*
the stored definition's valid-value set (`{x}` becomes `{y}`). -/
theorem claim_C5_counterexample :
    (cfgValidA.AddArgWithValid "a" "" ["y"]).2.1 = true ∧
    mapLookup cfgValidA.Args "a" = some ⟨"a", false, "", "", some ["x"]⟩ ∧
    mapLookup (cfgValidA.AddArgWithValid "a" "" ["y"]).2.2.Args "a" =
      some ⟨"a", false, "", "", some ["y"]⟩ := by
  exact ⟨by decide, by decide, by decide⟩

/-- C7, counterexample:  The non-inverted flag with long name `no-x`
and short alias `n`: the short spelling resolves and stores the value, but
the long spelling `--no-x` is routed through the inverted-flag lookup
(trimming the `--no-` cutset yields `x`) and fails with Unknown-Flag, so
the two spellings are not equivalent. -/
theorem claim_C7_counterexample :
    Parse regNoX ["c", "--no-x", "val"] = .error (.ErrorUnknownFlag "--no-x") ∧
    Parse regNoX ["c", "-n", "val"] =
      .ok ⟨"c", [("no-x", ⟨"no-x", false, "val"⟩)], []⟩ := by
  exact ⟨by decide, by decide⟩

/-- C9 (amended):  The resolver's forward pass terminates when the
tokens are exhausted *or* when it pops an empty-string token; in the
latter case the tokens following the empty string are skipped (whatever
was resolved so far is kept and the defaulting pass covers the rest). -/
theorem claim_C9 (cfg : CommandConfig) (rest : List String)
    (sf : List (String × Flag)) (sa : List (String × Arg)) :
    parseLoop cfg [] sf sa = .ok (sf, sa) ∧
    parseLoop cfg ("" :: rest) sf sa = .ok (sf, sa) := by
  refine ⟨rfl, ?_⟩
  have h : stepToken cfg "" rest sf sa = .halt sf sa := rfl
  rw [parseLoop, h]

/-- C4 (amended):  Only for `isBool = true` does a `no-`-prefixed name
register an inverted flag; it is stored under Go
`TrimLeft(name, "no-")` — the name with every leading character drawn from
the cutset `{n, o, -}` removed — with boolean=true, default `"true"`, and
no short alias, regardless of the supplied `shortName` and `defaultValue`.
With `isBool = false` a `no-`-prefixed name is registered as an ordinary
non-inverted flag under the name itself. -/
theorem claim_C4 :
    (∀ (cfg : CommandConfig) (name shortName defaultValue : String),
      goHasPrefix name "no-" = true →
      mapLookup cfg.Flags (goTrimLeftCutset name "no-") = none →
      cfg.AddFlag name shortName true defaultValue =
        (⟨goTrimLeftCutset name "no-", "", true, true, "true", "", none⟩, false,
         ⟨cfg.Name,
          mapInsert cfg.Flags (goTrimLeftCutset name "no-")
            ⟨goTrimLeftCutset name "no-", "", true, true, "true", "", none⟩,
          cfg.flagsShort, cfg.Args, cfg.ArgNames⟩)) ∧
    (∀ (cfg : CommandConfig) (name shortName defaultValue : String),
      mapLookup cfg.Flags (removeWhitespaces name) = none →
      (cfg.AddFlag name shortName false defaultValue).1.IsInverted = false ∧
      (cfg.AddFlag name shortName false defaultValue).1.Name = removeWhitespaces name) := by
  constructor
  · intro cfg name shortName defaultValue h1 h2
    simp [CommandConfig.AddFlag, flagKey, h1, h2]
  · intro cfg name shortName defaultValue h2
    constructor <;> simp [CommandConfig.AddFlag, flagKey, h2]

/-- C4, witness: -/
theorem claim_C4_witness :
    cfgBare.AddFlag "no-clean" "xy" true "zz" =
      (⟨goTrimLeftCutset "no-clean" "no-", "", true, true, "true", "", none⟩, false,
       ⟨cfgBare.Name,
        mapInsert cfgBare.Flags (goTrimLeftCutset "no-clean" "no-")
          ⟨goTrimLeftCutset "no-clean" "no-", "", true, true, "true", "", none⟩,
        cfgBare.flagsShort, cfgBare.Args, cfgBare.ArgNames⟩) ∧
    (cfgBare.AddFlag "out" "oz" false "d").1.IsInverted = false :=
  ⟨claim_C4.1 cfgBare "no-clean" "xy" "zz" (by decide) (by decide),
   (claim_C4.2 cfgBare "out" "oz" "d" (by decide)).1⟩

/-- C5 (amended):  Re-registering an existing name through `AddArg` or
`AddFlag` returns the stored definition unchanged, signals pre-existence,
and leaves the command untouched.  Re-registering through `AddArgWithValid`
or `AddFlagWithValid` also signals pre-existence and creates no duplicate
entry (the table size is unchanged), but it returns — and stores — the
existing definition with its valid-value set *overwritten* by the new
`validVals`. -/
theorem claim_C5 :
    (∀ (cfg : CommandConfig) (name dv : String) (a : ArgCommand),
      mapLookup cfg.Args (argKey name) = some a →
      cfg.AddArg name dv = (a, true, cfg)) ∧
    (∀ (cfg : CommandConfig) (name sn : String) (ib : Bool) (dv : String) (f : FlagCommand),
      mapLookup cfg.Flags (flagKey name ib) = some f →
      cfg.AddFlag name sn ib dv = (f, true, cfg)) ∧
    (∀ (cfg : CommandConfig) (name dv : String) (vv : List String) (a : ArgCommand),
      mapLookup cfg.Args (argKey name) = some a →
      cfg.AddArgWithValid name dv vv =
        (a.SetValidVals vv, true,
         { cfg with Args := mapInsert cfg.Args (argKey name) (a.SetValidVals vv) }) ∧
      (mapInsert cfg.Args (argKey name) (a.SetValidVals vv)).length = cfg.Args.length) ∧
    (∀ (cfg : CommandConfig) (name sn : String) (ib : Bool) (dv : String)
       (vv : List String) (f : FlagCommand),
      mapLookup cfg.Flags (flagKey name ib) = some f →
      cfg.AddFlagWithValid name sn ib dv vv =
        (f.SetValidVals vv, true,
         { cfg with Flags := mapInsert cfg.Flags (flagKey name ib) (f.SetValidVals vv) }) ∧
      (mapInsert cfg.Flags (flagKey name ib) (f.SetValidVals vv)).length = cfg.Flags.length) := by
  have harg : ∀ (cfg : CommandConfig) (name dv : String) (a : ArgCommand),
      mapLookup cfg.Args (argKey name) = some a →
      cfg.AddArg name dv = (a, true, cfg) := by
    intro cfg name dv a h
    simp [CommandConfig.AddArg, h]
  have hflag : ∀ (cfg : CommandConfig) (name sn : String) (ib : Bool) (dv : String)
      (f : FlagCommand),
      mapLookup cfg.Flags (flagKey name ib) = some f →
      cfg.AddFlag name sn ib dv = (f, true, cfg) := by
    intro cfg name sn ib dv f h
    simp [CommandConfig.AddFlag, h]
  refine ⟨harg, hflag, ?_, ?_⟩
  · intro cfg name dv vv a h
    refine ⟨?_, mapInsert_length_of_isSome _ _ _ (by rw [h]; rfl)⟩
    rw [CommandConfig.AddArgWithValid, harg cfg name dv a h]
  · intro cfg name sn ib dv vv f h
    refine ⟨?_, mapInsert_length_of_isSome _ _ _ (by rw [h]; rfl)⟩
    rw [CommandConfig.AddFlagWithValid, hflag cfg name sn ib dv f h]

/-- C5, witness: -/
theorem claim_C5_witness :
    cfgValidA.AddArg "a" "" = (⟨"a", false, "", "", some ["x"]⟩, true, cfgValidA) ∧
    cfgNoX.AddFlag "no-x" "q" false "" = (⟨"no-x", "n", false, false, "", "", none⟩, true, cfgNoX) ∧
    (mapInsert cfgValidA.Args (argKey "a")
      (ArgCommand.SetValidVals ⟨"a", false, "", "", some ["x"]⟩ ["y"])).length =
      cfgValidA.Args.length ∧
    (mapInsert cfgNoX.Flags (flagKey "no-x" false)
      (FlagCommand.SetValidVals ⟨"no-x", "n", false, false, "", "", none⟩ ["w"])).length =
      cfgNoX.Flags.length :=
  ⟨claim_C5.1 cfgValidA "a" "" ⟨"a", false, "", "", some ["x"]⟩ (by decide),
   claim_C5.2.1 cfgNoX "no-x" "q" false "" ⟨"no-x", "n", false, false, "", "", none⟩ (by decide),
   (claim_C5.2.2.1 cfgValidA "a" "" ["y"] ⟨"a", false, "", "", some ["x"]⟩ (by decide)).2,
   (claim_C5.2.2.2 cfgNoX "no-x" "q" false "" ["w"] ⟨"no-x", "n", false, false, "", "", none⟩
     (by decide)).2⟩

/-- C2 (amended):  A positional token is validated against the
valid-value set of *every* declared argument slot the scan passes, in
declaration order — already-filled slots included — and the first slot
whose set excludes the token yields Unsupported-Value naming that slot,
even when that slot is already filled.  When every scanned slot admits the
token, it is assigned to the first slot still unset. -/
theorem claim_C2 :
    (∀ (cfg : CommandConfig) (v : String) (preNames : List String) (aName : String)
       (restNames : List String) (store : List (String × Arg)) (a : ArgCommand),
      (∀ n ∈ preNames, ∃ b : ArgCommand, mapLookup cfg.Args n = some b ∧
        b.Validate v = true ∧ ∃ e : Arg, mapLookup store b.Name = some e ∧ e.Value ≠ "") →
      mapLookup cfg.Args aName = some a →
      a.Validate v = false →
      argLoop cfg v (preNames ++ aName :: restNames) store =
        .error (.ErrorUnsupportedValue a.Name v)) ∧
    (∀ (cfg : CommandConfig) (v : String) (preNames : List String) (aName : String)
       (restNames : List String) (store : List (String × Arg)) (a : ArgCommand),
      (∀ n ∈ preNames, ∃ b : ArgCommand, mapLookup cfg.Args n = some b ∧
        b.Validate v = true ∧ ∃ e : Arg, mapLookup store b.Name = some e ∧ e.Value ≠ "") →
      mapLookup cfg.Args aName = some a →
      a.Validate v = true →
      mapLookup store a.Name = none →
      argLoop cfg v (preNames ++ aName :: restNames) store =
        .ok (mapInsert store a.Name ⟨a.Name, a.IsVariadic, v⟩)) := by
  have hskip : ∀ (cfg : CommandConfig) (v n : String) (store : List (String × Arg))
      (b : ArgCommand) (e : Arg), mapLookup cfg.Args n = some b → b.Validate v = true →
      mapLookup store b.Name = some e → e.Value ≠ "" →
      argStep cfg v n false store = .next store := by
    intro cfg v n store b e hb hval he hev
    simp [argStep, hb, hval, he, hev]
  constructor
  · intro cfg v preNames
    induction preNames with
    | nil =>
      intro aName restNames store a _ ha hrej
      simp [argLoop, argStep, ha, hrej]
    | cons n pre ih =>
      intro aName restNames store a hall ha hrej
      obtain ⟨b, hb, hval, e, he, hev⟩ := hall n (List.mem_cons_self n pre)
      have hrest : ((pre ++ aName :: restNames).isEmpty) = false := by
        simp [List.isEmpty_iff]
      rw [List.cons_append, argLoop, hrest, hskip cfg v n store b e hb hval he hev]
      exact ih aName restNames store a
        (fun m hm => hall m (List.mem_cons_of_mem n hm)) ha hrej
  · intro cfg v preNames
    induction preNames with
    | nil =>
      intro aName restNames store a _ ha hval hnone
      simp only [List.nil_append, argLoop, argStep, ha, hval, hnone, Bool.not_true,
        Bool.false_eq_true, if_false]
      rw [mapInsert_mapInsert_same]
    | cons n pre ih =>
      intro aName restNames store a hall ha hval hnone
      obtain ⟨b, hb, hbval, e, he, hev⟩ := hall n (List.mem_cons_self n pre)
      have hrest : ((pre ++ aName :: restNames).isEmpty) = false := by
        simp [List.isEmpty_iff]
      rw [List.cons_append, argLoop, hrest, hskip cfg v n store b e hb hbval he hev]
      exact ih aName restNames store a
        (fun m hm => hall m (List.mem_cons_of_mem n hm)) ha hval hnone

/-- C2, witness:  On the command with arguments `a` (valid `{x}`) and
`b`: a token `"y"` scanned while slot `a` is already filled with `"x"`
still fails against `a`'s valid set; a token `"x"` passes the filled slot
`a` and is assigned to `b`. -/
theorem claim_C2_witness :
    argLoop cfgTwoArgs "y" ["a", "b"] [("a", ⟨"a", false, "x"⟩)] =
      .error (.ErrorUnsupportedValue "a" "y") ∧
    argLoop cfgTwoArgs "x" ["a", "b"] [("a", ⟨"a", false, "x"⟩)] =
      .ok [("a", ⟨"a", false, "x"⟩), ("b", ⟨"b", false, "x"⟩)] := by
  constructor
  · exact claim_C2.1 cfgTwoArgs "y" [] "a" ["b"] [("a", ⟨"a", false, "x"⟩)]
      ⟨"a", false, "", "", some ["x"]⟩ (by intro n hn; cases hn) (by decide) (by decide)
  · have h := claim_C2.2 cfgTwoArgs "x" ["a"] "b" [] [("a", ⟨"a", false, "x"⟩)]
      ⟨"b", false, "", "", none⟩
      (by
        intro n hn
        have : n = "a" := by
          cases hn with
          | head => rfl
          | tail _ h2 => cases h2
        subst this
        exact ⟨⟨"a", false, "", "", some ["x"]⟩, by decide, by decide,
          ⟨"a", false, "x"⟩, by decide, by decide⟩)
      (by decide) (by decide) (by decide)
    exact h

/-- C9, counterexample:  An empty-string token makes the resolver loop
break: the `-v` that follows it is never matched, and `verbose` keeps its
default `"false"` instead of becoming `"true"`. -/
theorem claim_C9_counterexample :
    Parse regVerbose ["c", "", "-v"] =
      .ok ⟨"c", [("verbose", ⟨"verbose", true, "false"⟩)], []⟩ ∧
    Parse regVerbose ["c", "-v"] =
      .ok ⟨"c", [("verbose", ⟨"verbose", true, "true"⟩)], []⟩ := by
  exact ⟨by decide, by decide⟩

/-- C10:  The defaulting pass never checks default values against
valid-value sets: whenever the resolver loop completes leaving a declared
flag (or argument) unset, `Parse` succeeds and stores that definition's
default value verbatim — also when the default lies outside the declared
valid-value set. -/
theorem claim_C10 :
    (∀ (reg : Registry) (values : List String) (cfg : CommandConfig)
       (sf : List (String × Flag)) (sa : List (String × Arg)) (k : String) (f : FlagCommand),
      unsupportedScan (normalizedTokens reg values) = none →
      mapLookup reg (selectedName reg values) = some cfg →
      parseLoop cfg (normalizedTokens reg values) [] [] = .ok (sf, sa) →
      mapLookup cfg.Flags k = some f →
      mapLookup sf k = none →
      f.Validate f.DefaultValue = false →
      ∃ res, Parse reg values = .ok res ∧ mapLookup res.Flags k = some f.StoreDefault) ∧
    (∀ (reg : Registry) (values : List String) (cfg : CommandConfig)
       (sf : List (String × Flag)) (sa : List (String × Arg)) (k : String) (a : ArgCommand),
      unsupportedScan (normalizedTokens reg values) = none →
      mapLookup reg (selectedName reg values) = some cfg →
      parseLoop cfg (normalizedTokens reg values) [] [] = .ok (sf, sa) →
      mapLookup cfg.Args k = some a →
      mapLookup sa k = none →
      a.Validate a.DefaultValue = false →
      ∃ res, Parse reg values = .ok res ∧ mapLookup res.Args k = some a.StoreDefault) := by
  constructor
  · intro reg values cfg sf sa k f hscan hsel hloop hdecl hunset _
    refine ⟨⟨cfg.Name, applyFlagDefaults cfg.Flags sf, applyArgDefaults cfg.Args sa⟩, ?_, ?_⟩
    · simp only [Parse, hscan, hsel, hloop]
    · show mapLookup (applyFlagDefaults cfg.Flags sf) k = some f.StoreDefault
      exact applyDefaults_missing _ _ _ _ _ hdecl hunset
  · intro reg values cfg sf sa k a hscan hsel hloop hdecl hunset _
    refine ⟨⟨cfg.Name, applyFlagDefaults cfg.Flags sf, applyArgDefaults cfg.Args sa⟩, ?_, ?_⟩
    · simp only [Parse, hscan, hsel, hloop]
    · show mapLookup (applyArgDefaults cfg.Args sa) k = some a.StoreDefault
      exact applyDefaults_missing _ _ _ _ _ hdecl hunset

/-- C10, witness:  A flag with default `"zz"` outside its valid set
`{a, b}` and an argument with default `"yy"` outside its valid set `{p}`:
`Parse ["c"]` succeeds and stores both out-of-set defaults. -/
theorem claim_C10_witness :
    (∃ res, Parse regBadDefaults ["c"] = .ok res ∧
      mapLookup res.Flags "mode" =
        some (FlagCommand.StoreDefault ⟨"mode", "m", false, false, "zz", "", some ["a", "b"]⟩)) ∧
    (∃ res, Parse regBadDefaults ["c"] = .ok res ∧
      mapLookup res.Args "cat" =
        some (ArgCommand.StoreDefault ⟨"cat", false, "yy", "", some ["p"]⟩)) :=
  ⟨claim_C10.1 regBadDefaults ["c"] cfgBadDefaults [] [] "mode"
      ⟨"mode", "m", false, false, "zz", "", some ["a", "b"]⟩
      (by decide) (by decide) (by decide) (by decide) (by decide) (by decide),
   claim_C10.2 regBadDefaults ["c"] cfgBadDefaults [] [] "cat"
      ⟨"cat", false, "yy", "", some ["p"]⟩
      (by decide) (by decide) (by decide) (by decide) (by decide) (by decide)⟩

/-- C8:  `Parse` is atomic: it returns exactly one error and no
result, or a result in which every flag and every argument declared on the
selected command is present — carrying its default value whenever the
token loop left it unset. -/
theorem claim_C8 (reg : Registry) (values : List String) (res : CommandParsed)
    (h : Parse reg values = .ok res) :
    ∃ cfg sf sa,
      mapLookup reg (selectedName reg values) = some cfg ∧
      parseLoop cfg (normalizedTokens reg values) [] [] = .ok (sf, sa) ∧
      res = ⟨cfg.Name, applyFlagDefaults cfg.Flags sf, applyArgDefaults cfg.Args sa⟩ ∧
      (∀ k fc, mapLookup cfg.Flags k = some fc →
        ∃ g, mapLookup res.Flags k = some g ∧
          (mapLookup sf k = none → g = fc.StoreDefault)) ∧
      (∀ k ac, mapLookup cfg.Args k = some ac →
        ∃ g, mapLookup res.Args k = some g ∧
          (mapLookup sa k = none → g = ac.StoreDefault)) := by
  unfold Parse at h
  by_cases hscan : unsupportedScan (normalizedTokens reg values) = none
  swap
  · obtain ⟨val, hval⟩ := Option.ne_none_iff_exists'.mp hscan
    rw [hval] at h
    exact Except.noConfusion h
  simp only [hscan] at h
  by_cases hsel0 : mapLookup reg (selectedName reg values) = none
  · simp only [hsel0] at h
    exact Except.noConfusion h
  obtain ⟨cfg, hsel⟩ := Option.ne_none_iff_exists'.mp hsel0
  simp only [hsel] at h
  rcases except_eq_error_or_ok (parseLoop cfg (normalizedTokens reg values) [] []) with
    ⟨e, he⟩ | ⟨p, hp⟩
  · rw [he] at h
    exact Except.noConfusion h
  obtain ⟨sf, sa⟩ := p
  rw [hp] at h
  obtain rfl := (Except.ok.inj h).symm
  refine ⟨cfg, sf, sa, hsel, hp, rfl, ?_, ?_⟩
  · intro k fc hdecl
    show ∃ g, mapLookup (applyFlagDefaults cfg.Flags sf) k = some g ∧
      (mapLookup sf k = none → g = fc.StoreDefault)
    exact applyDefaults_total _ _ _ _ _ hdecl
  · intro k ac hdecl
    show ∃ g, mapLookup (applyArgDefaults cfg.Args sa) k = some g ∧
      (mapLookup sa k = none → g = ac.StoreDefault)
    exact applyDefaults_total _ _ _ _ _ hdecl

/-- C8, witness: -/
theorem claim_C8_witness :
    ∃ cfg sf sa,
      mapLookup regVerbose (selectedName regVerbose ["c"]) = some cfg ∧
      parseLoop cfg (normalizedTokens regVerbose ["c"]) [] [] = .ok (sf, sa) ∧
      (⟨"c", [("verbose", ⟨"verbose", true, "false"⟩)], []⟩ : CommandParsed) =
        ⟨cfg.Name, applyFlagDefaults cfg.Flags sf, applyArgDefaults cfg.Args sa⟩ ∧
      (∀ k fc, mapLookup cfg.Flags k = some fc →
        ∃ g, mapLookup (⟨"c", [("verbose", ⟨"verbose", true, "false"⟩)], []⟩ :
            CommandParsed).Flags k = some g ∧
          (mapLookup sf k = none → g = fc.StoreDefault)) ∧
      (∀ k ac, mapLookup cfg.Args k = some ac →
        ∃ g, mapLookup (⟨"c", [("verbose", ⟨"verbose", true, "false"⟩)], []⟩ :
            CommandParsed).Args k = some g ∧
          (mapLookup sa k = none → g = ac.StoreDefault)) :=
  claim_C8 regVerbose ["c"] ⟨"c", [("verbose", ⟨"verbose", true, "false"⟩)], []⟩ (by decide)

/-- Go `isRootCommand` when the root is unregistered. -/
theorem isRootCommand_noRoot (reg : Registry) (values : List String)
    (h : mapLookup reg "" = none) : isRootCommand values reg = false := by
  unfold isRootCommand
  rw [h]

/-- Go `isRootCommand` on the empty list with a registered root. -/
theorem isRootCommand_nil (reg : Registry) (rootCfg : CommandConfig)
    (h : mapLookup reg "" = some rootCfg) : isRootCommand [] reg = true := by
  unfold isRootCommand
  rw [h]

/-- Go `isRootCommand` on a nonempty list with a registered root. -/
theorem isRootCommand_cons (reg : Registry) (v0 : String) (rest : List String)
    (rootCfg : CommandConfig) (h : mapLookup reg "" = some rootCfg) :
    isRootCommand (v0 :: rest) reg =
      (if isFlag v0 then true
       else decide (0 < rootCfg.Args.length) && (mapLookup reg v0).isNone) := by
  unfold isRootCommand
  rw [h]

/-- C3 (amended):  When the root command is registered,
`Parse ["---version"]` fails with Unsupported-Flag naming `"---version"`.
In general, whenever the *normalized remaining* token stream (the tokens
left after command selection, `=`-split) contains a malformed flag-shaped
token, `Parse` aborts with Unsupported-Flag naming the first such token;
this scan precedes the registry lookup, hence precedes Unknown-Command and
Unknown-Flag. -/
theorem claim_C3 :
    (∀ (reg : Registry) (rootCfg : CommandConfig), mapLookup reg "" = some rootCfg →
      Parse reg ["---version"] = .error (.ErrorUnsupportedFlag "---version")) ∧
    (∀ (reg : Registry) (values : List String) (t : String),
      unsupportedScan (normalizedTokens reg values) = some t →
      Parse reg values = .error (.ErrorUnsupportedFlag t)) := by
  constructor
  · intro reg rootCfg h
    have hroot : isRootCommand ["---version"] reg = true := by
      unfold isRootCommand
      rw [h]
      simp [show isFlag "---version" = true from rfl]
    have hrem : remainingTokens reg ["---version"] = ["---version"] := by
      unfold remainingTokens
      rw [hroot]
      rfl
    have hscan : unsupportedScan (normalizedTokens reg ["---version"]) = some "---version" := by
      unfold normalizedTokens
      rw [hrem]
      decide
    simp only [Parse, hscan]
  · intro reg values t h
    simp only [Parse, h]

/-- C3, witness: -/
theorem claim_C3_witness :
    Parse regRootOnly ["---version"] = .error (.ErrorUnsupportedFlag "---version") ∧
    Parse regRootOnly ["x", "---y"] = .error (.ErrorUnsupportedFlag "---y") :=
  ⟨claim_C3.1 regRootOnly (Register [] "").1 (by decide),
   claim_C3.2 regRootOnly ["x", "---y"] "---y" (by decide)⟩

/-- C6 (amended):  The root command is selected iff it is registered
and (the list is empty, or the first token is flag-shaped, or the first
token is not a registered command name and the root declares at least one
argument); otherwise the first token is consumed as the command name with
the rest as the remaining tokens.  Absence of the selected name from the
registry yields Unknown-Command carrying that name, *provided* the
normalized remaining tokens contain no malformed flag-shaped token (the
malformed-flag scan precedes the registry lookup). -/
theorem claim_C6 (reg : Registry) (values : List String) :
    (isRootCommand values reg = true ↔
      ∃ rootCfg, mapLookup reg "" = some rootCfg ∧
        (values = [] ∨ ∃ v0 rest, values = v0 :: rest ∧
          (isFlag v0 = true ∨ (0 < rootCfg.Args.length ∧ mapLookup reg v0 = none)))) ∧
    (∀ v0 rest, values = v0 :: rest → isRootCommand values reg = false →
      selectedName reg values = v0 ∧ remainingTokens reg values = rest) ∧
    (unsupportedScan (normalizedTokens reg values) = none →
      mapLookup reg (selectedName reg values) = none →
      Parse reg values = .error (.ErrorUnknownCommand (selectedName reg values))) := by
  refine ⟨?_, ?_, ?_⟩
  · constructor
    · intro h
      by_cases hroot0 : mapLookup reg "" = none
      · rw [isRootCommand_noRoot reg values hroot0] at h; cases h
      · obtain ⟨rootCfg, hroot⟩ := Option.ne_none_iff_exists'.mp hroot0
        refine ⟨rootCfg, hroot, ?_⟩
        cases values with
        | nil => exact Or.inl rfl
        | cons v0 rest =>
          rw [isRootCommand_cons reg v0 rest rootCfg hroot] at h
          by_cases hf : isFlag v0 = true
          · exact Or.inr ⟨v0, rest, rfl, Or.inl hf⟩
          · refine Or.inr ⟨v0, rest, rfl, Or.inr ?_⟩
            rw [if_neg hf] at h
            have h1 := (Bool.and_eq_true _ _).mp h
            exact ⟨of_decide_eq_true h1.1, Option.isNone_iff_eq_none.mp h1.2⟩
    · rintro ⟨rootCfg, hroot, hcase⟩
      rcases hcase with rfl | ⟨v0, rest, rfl, hor⟩
      · exact isRootCommand_nil reg rootCfg hroot
      · rw [isRootCommand_cons reg v0 rest rootCfg hroot]
        rcases hor with hf | ⟨hargs, hnone⟩
        · simp only [hf, if_true]
        · by_cases hf : isFlag v0 = true
          · simp only [hf, if_true]
          · rw [if_neg hf]
            simp [hargs, hnone]
  · intro v0 rest hv hfalse
    subst hv
    constructor <;> simp [selectedName, remainingTokens, hfalse, nextValue]
  · intro hscan hsel
    simp only [Parse, hscan, hsel]

/-- C6, witness: -/
theorem claim_C6_witness :
    (selectedName regRootOnly ["zzz"] = "zzz" ∧ remainingTokens regRootOnly ["zzz"] = []) ∧
    Parse regRootOnly ["zzz"] = .error (.ErrorUnknownCommand (selectedName regRootOnly ["zzz"])) :=
  ⟨(claim_C6 regRootOnly ["zzz"]).2.1 "zzz" [] rfl (by decide),
   (claim_C6 regRootOnly ["zzz"]).2.2 (by decide) (by decide)⟩

/-! ## Helper lemmas for the long/short flag equivalence -/

theorem string_mk_data (s : String) : String.mk s.data = s := rfl

theorem ddX_data (X : String) : ("--" ++ X).data = '-' :: '-' :: X.data := by
  rw [String.data_append]
  rfl

theorem dY_data (Y : Char) : ("-" ++ String.mk [Y]).data = ['-', Y] := by
  rw [String.data_append]
  rfl

theorem splitEqList_no_eq (l : List Char) (h : '=' ∉ l) : splitEqList l = [l] := by
  induction l with
  | nil => rfl
  | cons c t ih =>
    have hc : c ≠ '=' := fun hc => h (hc ▸ List.mem_cons_self c t)
    have ht : '=' ∉ t := fun hm => h (List.mem_cons_of_mem c hm)
    simp only [splitEqList, ih ht]
    rw [if_neg hc]

theorem goSplitEq_no_eq (s : String) (h : '=' ∉ s.data) : goSplitEq s = [s] := by
  unfold goSplitEq
  rw [splitEqList_no_eq s.data h]
  simp [string_mk_data]

theorem goTrimCutset_spaces_ne (l : List Char) (c : Char) (hc : c ≠ ' ') (hm : c ∈ l) :
    goTrimCutset (String.mk l) " " ≠ "" := by
  intro hcontra
  have h2 : ((l.dropWhile (fun x => (" " : String).data.contains x)).reverse.dropWhile
      (fun x => (" " : String).data.contains x)).reverse = [] :=
    congrArg String.data hcontra
  rw [List.reverse_eq_nil_iff] at h2
  rw [List.dropWhile_eq_nil_iff] at h2
  have hpc : ((" " : String).data.contains c) = false := by
    have : c ≠ ' ' := hc
    simp [List.contains, this]
  have hcmem : c ∈ l.dropWhile (fun x => (" " : String).data.contains x) := by
    have := List.takeWhile_append_dropWhile
      (p := fun x => (" " : String).data.contains x) (l := l)
    rw [← this] at hm
    rcases List.mem_append.mp hm with htk | hdr
    · have := List.mem_takeWhile_imp htk
      rw [hpc] at this
      cases this
    · exact hdr
  have := h2 c (List.mem_reverse.mpr hcmem)
  rw [hpc] at this
  cases this

theorem format_append (A B : List String) :
    formatCommandValues (A ++ B) = formatCommandValues A ++ formatCommandValues B := by
  simp [formatCommandValues]

theorem format_flag_cons (t : String) (B : List String) (hf : isFlag t = true)
    (hne : '=' ∉ t.data) (hkeep : goTrimCutset t " " ≠ "") :
    formatCommandValues (t :: B) = t :: formatCommandValues B := by
  simp only [formatCommandValues, List.map_cons, List.flatten_cons, hf, if_true]
  rw [goSplitEq_no_eq t hne]
  simp [hkeep]

theorem hasPrefix_dd_dd (X : String) : goHasPrefix ("--" ++ X) "--" = true := by
  unfold goHasPrefix
  rw [ddX_data]
  simp [List.isPrefixOf]

theorem hasPrefix_dd_d (X : String) : goHasPrefix ("--" ++ X) "-" = true := by
  unfold goHasPrefix
  rw [ddX_data]
  simp [List.isPrefixOf]

theorem hasPrefix_dd_ddd (X : String) : goHasPrefix ("--" ++ X) "---" = goHasPrefix X "-" := by
  unfold goHasPrefix
  rw [ddX_data]
  simp [List.isPrefixOf]

theorem hasPrefix_dd_no (X : String) : goHasPrefix ("--" ++ X) "--no-" = goHasPrefix X "no-" := by
  unfold goHasPrefix
  rw [ddX_data]
  simp [List.isPrefixOf]

theorem isFlag_ddX (X : String) : isFlag ("--" ++ X) = true := by
  unfold isFlag
  rw [hasPrefix_dd_d, ddX_data]
  simp

theorem isShortFlag_ddX (X : String) (hX0 : X.data ≠ []) :
    isShortFlag ("--" ++ X) = false := by
  unfold isShortFlag
  have hlen : decide (("--" ++ X).data.length = 2) = false := by
    rw [ddX_data]
    cases hd : X.data with
    | nil => exact absurd hd hX0
    | cons c t => simp
  rw [hlen]
  simp

theorem isUnsupportedFlag_ddX (X : String) (hX0 : X.data ≠ [])
    (hX1 : goHasPrefix X "-" = false) : isUnsupportedFlag ("--" ++ X) = false := by
  unfold isUnsupportedFlag
  rw [hasPrefix_dd_dd, hasPrefix_dd_ddd, hX1]
  cases hd : X.data with
  | nil => exact absurd hd hX0
  | cons c t =>
    rw [if_pos (by rw [ddX_data, hd]; simp)]
    rw [if_neg (by rw [ddX_data, hd]; simp)]
    simp

theorem trimLeft_dd (X : String) (hX0 : X.data ≠ []) (hX1 : goHasPrefix X "-" = false) :
    goTrimLeftCutset ("--" ++ X) "--" = X := by
  cases hd : X.data with
  | nil => exact absurd hd hX0
  | cons c t =>
    have hc : ('-' == c) = false := by
      unfold goHasPrefix at hX1
      rw [hd] at hX1
      simpa [List.isPrefixOf] using hX1
    have hcne : c ≠ '-' := by
      intro hcc
      subst hcc
      simp at hc
    unfold goTrimLeftCutset
    rw [ddX_data, hd]
    rw [show List.dropWhile (fun x => (("--" : String).data.contains x))
        ('-' :: '-' :: c :: t) = c :: t by simp [List.dropWhile, hcne]]
    rw [← hd, string_mk_data]

theorem isInvertedFlag_ddX (X : String) (hX0 : X.data ≠ [])
    (hX1 : goHasPrefix X "-" = false) (hX2 : goHasPrefix X "no-" = false) :
    isInvertedFlag ("--" ++ X) = (false, X) := by
  unfold isInvertedFlag
  rw [hasPrefix_dd_no, hX2]
  simp only [Bool.and_false, Bool.false_eq_true, if_false]
  rw [trimLeft_dd X hX0 hX1]

theorem isFlag_dY (Y : Char) : isFlag ("-" ++ String.mk [Y]) = true := by
  unfold isFlag goHasPrefix
  rw [dY_data]
  simp [List.isPrefixOf]

theorem hasPrefix_dY_dd (Y : Char) (hY1 : Y ≠ '-') :
    goHasPrefix ("-" ++ String.mk [Y]) "--" = false := by
  unfold goHasPrefix
  rw [dY_data]
  have : ('-' == Y) = false := by
    rw [beq_eq_false_iff_ne]
    exact fun hcc => hY1 hcc.symm
  simp [List.isPrefixOf, this]

theorem isShortFlag_dY (Y : Char) (hY1 : Y ≠ '-') :
    isShortFlag ("-" ++ String.mk [Y]) = true := by
  unfold isShortFlag
  rw [isFlag_dY, hasPrefix_dY_dd Y hY1, dY_data]
  simp

theorem isUnsupportedFlag_dY (Y : Char) (hY1 : Y ≠ '-') :
    isUnsupportedFlag ("-" ++ String.mk [Y]) = false := by
  unfold isUnsupportedFlag
  rw [hasPrefix_dY_dd Y hY1]
  have h1 : goHasPrefix ("-" ++ String.mk [Y]) "-" = true := by
    unfold goHasPrefix
    rw [dY_data]
    simp [List.isPrefixOf]
  rw [h1, dY_data]
  simp

theorem trimLeft_dY (Y : Char) (hY1 : Y ≠ '-') :
    goTrimLeftCutset ("-" ++ String.mk [Y]) "-" = String.mk [Y] := by
  unfold goTrimLeftCutset
  rw [dY_data]
  rw [show List.dropWhile (fun x => (("-" : String).data.contains x)) ['-', Y] = [Y] by
    simp [List.dropWhile, hY1]]

theorem lookupFlag_long (cfg : CommandConfig) (X : String) (f : FlagCommand)
    (hX0 : X.data ≠ []) (hX1 : goHasPrefix X "-" = false) (hX2 : goHasPrefix X "no-" = false)
    (hF : mapLookup cfg.Flags X = some f) (hninv : f.IsInverted = false) :
    lookupFlag cfg ("--" ++ X) = .ok (some f) := by
  unfold lookupFlag
  rw [isShortFlag_ddX X hX0]
  simp only [Bool.false_eq_true, if_false]
  rw [isInvertedFlag_ddX X hX0 hX1 hX2]
  simp only [hF, hninv, Bool.false_eq_true, if_false]

theorem lookupFlag_short (cfg : CommandConfig) (X : String) (Y : Char) (f : FlagCommand)
    (hY1 : Y ≠ '-')
    (hshort : mapLookup cfg.flagsShort (String.mk [Y]) = some X)
    (hF : mapLookup cfg.Flags X = some f) :
    lookupFlag cfg ("-" ++ String.mk [Y]) = .ok (some f) := by
  unfold lookupFlag
  rw [isShortFlag_dY Y hY1]
  simp only [if_true]
  rw [trimLeft_dY Y hY1]
  simp only [hshort, hF]

theorem stepToken_long_short (cfg : CommandConfig) (X : String) (Y : Char) (f : FlagCommand)
    (hX0 : X.data ≠ []) (hX1 : goHasPrefix X "-" = false) (hX2 : goHasPrefix X "no-" = false)
    (hY1 : Y ≠ '-')
    (hshort : mapLookup cfg.flagsShort (String.mk [Y]) = some X)
    (hF : mapLookup cfg.Flags X = some f) (hninv : f.IsInverted = false)
    (rest : List String) (sf : List (String × Flag)) (sa : List (String × Arg)) :
    stepToken cfg ("--" ++ X) rest sf sa = stepToken cfg ("-" ++ String.mk [Y]) rest sf sa := by
  have h1 : ¬ (("--" ++ X).data.length = 0) := by
    rw [ddX_data]
    simp
  have h2 : ¬ (("-" ++ String.mk [Y]).data.length = 0) := by
    rw [dY_data]
    simp
  unfold stepToken
  rw [if_neg h1, if_neg h2, isFlag_ddX X, isFlag_dY Y]
  simp only [if_true]
  rw [lookupFlag_long cfg X f hX0 hX1 hX2 hF hninv,
    lookupFlag_short cfg X Y f hY1 hshort hF]

theorem parseLoop_cons (cfg : CommandConfig) (value : String) (rest : List String)
    (sf : List (String × Flag)) (sa : List (String × Arg)) :
    parseLoop cfg (value :: rest) sf sa =
      (match stepToken cfg value rest sf sa with
       | .halt sf2 sa2 => .ok (sf2, sa2)
       | .fail e => .error e
       | .cont1 sf2 sa2 => parseLoop cfg rest sf2 sa2
       | .cont2 sf2 sa2 =>
         match rest with
         | [] => .ok (sf2, sa2)
         | _ :: nrest => parseLoop cfg nrest sf2 sa2) := by
  rw [parseLoop]

/-- Go `stepToken` inspects the remaining tokens only through their head. -/
theorem stepToken_head_eq (cfg : CommandConfig) (a nv : String) (t1 t2 : List String)
    (sf : List (String × Flag)) (sa : List (String × Arg)) :
    stepToken cfg a (nv :: t1) sf sa = stepToken cfg a (nv :: t2) sf sa := by
  simp only [stepToken]

/-- A flag-shaped head of the remaining tokens is never consumed as a
value, so two flag-shaped heads act alike in `stepToken`. -/
theorem stepToken_flagHead_eq (cfg : CommandConfig) (a nv1 nv2 : String)
    (t1 t2 : List String) (sf : List (String × Flag)) (sa : List (String × Arg))
    (h1 : isFlag nv1 = true) (h2 : isFlag nv2 = true) :
    stepToken cfg a (nv1 :: t1) sf sa = stepToken cfg a (nv2 :: t2) sf sa := by
  simp only [stepToken, h1, h2, Bool.not_true, Bool.and_false, Bool.false_eq_true, if_false]

/-- Replacing one flag-shaped token of the stream by another that resolves
to the same flag definition leaves the whole loop unchanged. -/
theorem parseLoop_subst (cfg : CommandConfig) (tokL tokS : String)
    (hflagL : isFlag tokL = true) (hflagS : isFlag tokS = true)
    (hstep : ∀ (rest : List String) (sf : List (String × Flag)) (sa : List (String × Arg)),
      stepToken cfg tokL rest sf sa = stepToken cfg tokS rest sf sa) :
    ∀ (n : Nat) (A : List String), A.length ≤ n →
      ∀ (B : List String) (sf : List (String × Flag)) (sa : List (String × Arg)),
      parseLoop cfg (A ++ tokL :: B) sf sa = parseLoop cfg (A ++ tokS :: B) sf sa := by
  have base : ∀ (B : List String) sf sa,
      parseLoop cfg (tokL :: B) sf sa = parseLoop cfg (tokS :: B) sf sa := by
    intro B sf sa
    rw [parseLoop_cons, parseLoop_cons, hstep B sf sa]
  intro n
  induction n with
  | zero =>
    intro A hA B sf sa
    obtain rfl : A = [] := List.eq_nil_of_length_eq_zero (Nat.le_zero.mp hA)
    exact base B sf sa
  | succ n ih =>
    intro A hA B sf sa
    cases A with
    | nil => exact base B sf sa
    | cons a A2 =>
      have hA2 : A2.length ≤ n := by
        simp only [List.length_cons] at hA
        omega
      rw [List.cons_append, List.cons_append, parseLoop_cons, parseLoop_cons]
      have hstepa : stepToken cfg a (A2 ++ tokL :: B) sf sa =
          stepToken cfg a (A2 ++ tokS :: B) sf sa := by
        cases A2 with
        | nil => exact stepToken_flagHead_eq cfg a tokL tokS B B sf sa hflagL hflagS
        | cons a2 A3 =>
          rw [List.cons_append, List.cons_append]
          exact stepToken_head_eq cfg a a2 (A3 ++ tokL :: B) (A3 ++ tokS :: B) sf sa
      rw [hstepa]
      cases hres : stepToken cfg a (A2 ++ tokS :: B) sf sa with
      | halt sf2 sa2 => rfl
      | fail e => rfl
      | cont1 sf2 sa2 => exact ih A2 hA2 B sf2 sa2
      | cont2 sf2 sa2 =>
        cases A2 with
        | nil => rfl
        | cons a2 A3 =>
          have hA3 : A3.length ≤ n := by
            simp only [List.length_cons] at hA2
            omega
          rw [List.cons_append, List.cons_append]
          exact ih A3 hA3 B sf2 sa2

theorem unsupported_pred_ddX (X : String) (hX0 : X.data ≠ [])
    (hX1 : goHasPrefix X "-" = false) :
    (isFlag ("--" ++ X) && isUnsupportedFlag ("--" ++ X)) = false := by
  rw [isUnsupportedFlag_ddX X hX0 hX1]
  simp

theorem unsupported_pred_dY (Y : Char) (hY1 : Y ≠ '-') :
    (isFlag ("-" ++ String.mk [Y]) && isUnsupportedFlag ("-" ++ String.mk [Y])) = false := by
  rw [isUnsupportedFlag_dY Y hY1]
  simp

theorem eq_not_mem_ddX (X : String) (hX3 : '=' ∉ X.data) : '=' ∉ ("--" ++ X).data := by
  rw [ddX_data]
  simp [hX3]

theorem eq_not_mem_dY (Y : Char) (hY2 : Y ≠ '=') : '=' ∉ ("-" ++ String.mk [Y]).data := by
  rw [dY_data]
  intro hmem
  rcases List.mem_cons.mp hmem with h | h
  · exact absurd h (by decide)
  · rcases List.mem_cons.mp h with h2 | h2
    · exact hY2 h2.symm
    · cases h2

theorem keep_ddX (X : String) : goTrimCutset ("--" ++ X) " " ≠ "" := by
  have h : goTrimCutset (String.mk (("--" ++ X).data)) " " ≠ "" :=
    goTrimCutset_spaces_ne (("--" ++ X).data) '-' (by decide)
      (by rw [ddX_data]; exact List.mem_cons_self _ _)
  rw [string_mk_data] at h
  exact h

theorem keep_dY (Y : Char) : goTrimCutset ("-" ++ String.mk [Y]) " " ≠ "" := by
  have h : goTrimCutset (String.mk (("-" ++ String.mk [Y]).data)) " " ≠ "" :=
    goTrimCutset_spaces_ne (("-" ++ String.mk [Y]).data) '-' (by decide)
      (by rw [dY_data]; exact List.mem_cons_self _ _)
  rw [string_mk_data] at h
  exact h

/-- The heart of the long/short equivalence: once both token lists select
the same command name and their remaining tokens differ only in the one
flag token, `Parse` gives the same answer. -/
theorem parse_core_subst (reg : Registry) (nm : String) (C post : List String)
    (X : String) (Y : Char)
    (hX0 : X.data ≠ []) (hX1 : goHasPrefix X "-" = false)
    (hX2 : goHasPrefix X "no-" = false) (hX3 : '=' ∉ X.data)
    (hY1 : Y ≠ '-') (hY2 : Y ≠ '=')
    (hcfg : ∀ cfg : CommandConfig, mapLookup reg nm = some cfg →
      mapLookup cfg.flagsShort (String.mk [Y]) = some X ∧
      ∃ f, mapLookup cfg.Flags X = some f ∧ f.IsInverted = false)
    (l1 l2 : List String)
    (hsel1 : selectedName reg l1 = nm) (hsel2 : selectedName reg l2 = nm)
    (hrem1 : remainingTokens reg l1 = C ++ ("--" ++ X) :: post)
    (hrem2 : remainingTokens reg l2 = C ++ ("-" ++ String.mk [Y]) :: post) :
    Parse reg l1 = Parse reg l2 := by
  have hnorm1 : normalizedTokens reg l1 =
      formatCommandValues C ++ ("--" ++ X) :: formatCommandValues post := by
    unfold normalizedTokens
    rw [hrem1, format_append,
      format_flag_cons _ _ (isFlag_ddX X) (eq_not_mem_ddX X hX3) (keep_ddX X)]
  have hnorm2 : normalizedTokens reg l2 =
      formatCommandValues C ++ ("-" ++ String.mk [Y]) :: formatCommandValues post := by
    unfold normalizedTokens
    rw [hrem2, format_append,
      format_flag_cons _ _ (isFlag_dY Y) (eq_not_mem_dY Y hY2) (keep_dY Y)]
  have hscanEq : unsupportedScan (normalizedTokens reg l1) =
      unsupportedScan (normalizedTokens reg l2) := by
    rw [hnorm1, hnorm2]
    unfold unsupportedScan
    rw [List.find?_append, List.find?_append]
    rw [List.find?_cons_of_neg _ (by rw [unsupported_pred_ddX X hX0 hX1]; simp),
      List.find?_cons_of_neg _ (by rw [unsupported_pred_dY Y hY1]; simp)]
  unfold Parse
  rw [hscanEq, hsel1, hsel2]
  by_cases hlk0 : mapLookup reg nm = none
  · rw [hlk0]
  · obtain ⟨cfg, hlk⟩ := Option.ne_none_iff_exists'.mp hlk0
    obtain ⟨hshort, f, hF, hninv⟩ := hcfg cfg hlk
    have hloopEq : parseLoop cfg (normalizedTokens reg l1) [] [] =
        parseLoop cfg (normalizedTokens reg l2) [] [] := by
      rw [hnorm1, hnorm2]
      exact parseLoop_subst cfg ("--" ++ X) ("-" ++ String.mk [Y])
        (isFlag_ddX X) (isFlag_dY Y)
        (fun rest sf sa => stepToken_long_short cfg X Y f hX0 hX1 hX2 hY1 hshort hF hninv rest sf sa)
        (formatCommandValues C).length (formatCommandValues C) le_rfl
        (formatCommandValues post) [] []
    simp only [hlk]
    rw [hloopEq]

/-- C7 (amended):  For a non-inverted flag with long name `X` and
short alias `Y` on the selected command, replacing the token `--X` by `-Y`
anywhere in the token list leaves `Parse`'s result unchanged, provided the
shapes cooperate: `X` is nonempty, does not start with `-` or `no-`, and
contains no `=`; `Y` is a single character other than `-` and `=`; and,
when the flag token is the first token, the root command is registered
(otherwise the token itself would be consumed as the command name).  The
value token (if any) is part of the common suffix, so both spellings
consume it identically. -/
theorem claim_C7 (reg : Registry) (pre post : List String) (X : String) (Y : Char)
    (hX0 : X.data ≠ []) (hX1 : goHasPrefix X "-" = false)
    (hX2 : goHasPrefix X "no-" = false) (hX3 : '=' ∉ X.data)
    (hY1 : Y ≠ '-') (hY2 : Y ≠ '=')
    (hpre : pre = [] → mapLookup reg "" ≠ none)
    (hcfg : ∀ cfg : CommandConfig,
      mapLookup reg (selectedName reg (pre ++ ("--" ++ X) :: post)) = some cfg →
      mapLookup cfg.flagsShort (String.mk [Y]) = some X ∧
      ∃ f, mapLookup cfg.Flags X = some f ∧ f.IsInverted = false) :
    Parse reg (pre ++ ("--" ++ X) :: post) =
      Parse reg (pre ++ ("-" ++ String.mk [Y]) :: post) := by
  cases pre with
  | nil =>
    obtain ⟨r, hr⟩ := Option.ne_none_iff_exists'.mp (hpre rfl)
    have hroot1 : isRootCommand (([] : List String) ++ ("--" ++ X) :: post) reg = true := by
      rw [List.nil_append, isRootCommand_cons reg _ post r hr, isFlag_ddX]
      simp
    have hroot2 : isRootCommand (([] : List String) ++ ("-" ++ String.mk [Y]) :: post) reg = true := by
      rw [List.nil_append, isRootCommand_cons reg _ post r hr, isFlag_dY]
      simp
    have hsel1 : selectedName reg (([] : List String) ++ ("--" ++ X) :: post) = "" := by
      unfold selectedName
      rw [hroot1]
      simp
    have hsel2 : selectedName reg (([] : List String) ++ ("-" ++ String.mk [Y]) :: post) = "" := by
      unfold selectedName
      rw [hroot2]
      simp
    have hrem1 : remainingTokens reg (([] : List String) ++ ("--" ++ X) :: post) =
        [] ++ ("--" ++ X) :: post := by
      unfold remainingTokens
      rw [hroot1]
      simp
    have hrem2 : remainingTokens reg (([] : List String) ++ ("-" ++ String.mk [Y]) :: post) =
        [] ++ ("-" ++ String.mk [Y]) :: post := by
      unfold remainingTokens
      rw [hroot2]
      simp
    exact parse_core_subst reg "" [] post X Y hX0 hX1 hX2 hX3 hY1 hY2
      (fun cfg hc => hcfg cfg (by rw [hsel1]; exact hc)) _ _ hsel1 hsel2 hrem1 hrem2
  | cons p pre2 =>
    by_cases hroot0 : mapLookup reg "" = none
    · have h1 : isRootCommand ((p :: pre2) ++ ("--" ++ X) :: post) reg = false :=
        isRootCommand_noRoot _ _ hroot0
      have h2 : isRootCommand ((p :: pre2) ++ ("-" ++ String.mk [Y]) :: post) reg = false :=
        isRootCommand_noRoot _ _ hroot0
      have hsel1 : selectedName reg ((p :: pre2) ++ ("--" ++ X) :: post) = p := by
        unfold selectedName
        rw [h1]
        simp [List.cons_append, nextValue]
      have hsel2 : selectedName reg ((p :: pre2) ++ ("-" ++ String.mk [Y]) :: post) = p := by
        unfold selectedName
        rw [h2]
        simp [List.cons_append, nextValue]
      have hrem1 : remainingTokens reg ((p :: pre2) ++ ("--" ++ X) :: post) =
          pre2 ++ ("--" ++ X) :: post := by
        unfold remainingTokens
        rw [h1]
        simp [List.cons_append, nextValue]
      have hrem2 : remainingTokens reg ((p :: pre2) ++ ("-" ++ String.mk [Y]) :: post) =
          pre2 ++ ("-" ++ String.mk [Y]) :: post := by
        unfold remainingTokens
        rw [h2]
        simp [List.cons_append, nextValue]
      exact parse_core_subst reg p pre2 post X Y hX0 hX1 hX2 hX3 hY1 hY2
        (fun cfg hc => hcfg cfg (by rw [hsel1]; exact hc)) _ _ hsel1 hsel2 hrem1 hrem2
    · obtain ⟨r, hr⟩ := Option.ne_none_iff_exists'.mp hroot0
      have hbeq : isRootCommand ((p :: pre2) ++ ("--" ++ X) :: post) reg =
          isRootCommand ((p :: pre2) ++ ("-" ++ String.mk [Y]) :: post) reg := by
        rw [List.cons_append, List.cons_append,
          isRootCommand_cons reg p _ r hr, isRootCommand_cons reg p _ r hr]
      by_cases hb : isRootCommand ((p :: pre2) ++ ("--" ++ X) :: post) reg = true
      · have hb2 : isRootCommand ((p :: pre2) ++ ("-" ++ String.mk [Y]) :: post) reg = true := by
          rw [← hbeq]
          exact hb
        have hsel1 : selectedName reg ((p :: pre2) ++ ("--" ++ X) :: post) = "" := by
          unfold selectedName
          rw [hb]
          simp
        have hsel2 : selectedName reg ((p :: pre2) ++ ("-" ++ String.mk [Y]) :: post) = "" := by
          unfold selectedName
          rw [hb2]
          simp
        have hrem1 : remainingTokens reg ((p :: pre2) ++ ("--" ++ X) :: post) =
            (p :: pre2) ++ ("--" ++ X) :: post := by
          unfold remainingTokens
          rw [hb]
          simp
        have hrem2 : remainingTokens reg ((p :: pre2) ++ ("-" ++ String.mk [Y]) :: post) =
            (p :: pre2) ++ ("-" ++ String.mk [Y]) :: post := by
          unfold remainingTokens
          rw [hb2]
          simp
        exact parse_core_subst reg "" (p :: pre2) post X Y hX0 hX1 hX2 hX3 hY1 hY2
          (fun cfg hc => hcfg cfg (by rw [hsel1]; exact hc)) _ _ hsel1 hsel2 hrem1 hrem2
      · have hb1 : isRootCommand ((p :: pre2) ++ ("--" ++ X) :: post) reg = false := by
          revert hb
          cases isRootCommand ((p :: pre2) ++ ("--" ++ X) :: post) reg <;> simp
        have hb2 : isRootCommand ((p :: pre2) ++ ("-" ++ String.mk [Y]) :: post) reg = false := by
          rw [← hbeq]
          exact hb1
        have hsel1 : selectedName reg ((p :: pre2) ++ ("--" ++ X) :: post) = p := by
          unfold selectedName
          rw [hb1]
          simp [List.cons_append, nextValue]
        have hsel2 : selectedName reg ((p :: pre2) ++ ("-" ++ String.mk [Y]) :: post) = p := by
          unfold selectedName
          rw [hb2]
          simp [List.cons_append, nextValue]
        have hrem1 : remainingTokens reg ((p :: pre2) ++ ("--" ++ X) :: post) =
            pre2 ++ ("--" ++ X) :: post := by
          unfold remainingTokens
          rw [hb1]
          simp [List.cons_append, nextValue]
        have hrem2 : remainingTokens reg ((p :: pre2) ++ ("-" ++ String.mk [Y]) :: post) =
            pre2 ++ ("-" ++ String.mk [Y]) :: post := by
          unfold remainingTokens
          rw [hb2]
          simp [List.cons_append, nextValue]
        exact parse_core_subst reg p pre2 post X Y hX0 hX1 hX2 hX3 hY1 hY2
          (fun cfg hc => hcfg cfg (by rw [hsel1]; exact hc)) _ _ hsel1 hsel2 hrem1 hrem2

/-- C7, witness:  On the Scenario A schema, `--output ./x` and
`-o ./x` parse identically. -/
theorem claim_C7_witness :
    Parse scenarioAReg (["info", "student"] ++ ("--" ++ "output") :: ["./x"]) =
      Parse scenarioAReg (["info", "student"] ++ ("-" ++ String.mk ['o']) :: ["./x"]) :=
  claim_C7 scenarioAReg ["info", "student"] ["./x"] "output" 'o'
    (by decide) (by decide) (by decide) (by decide) (by decide) (by decide)
    (fun h => absurd h (by decide))
    (fun cfg hc => by
      have he : mapLookup scenarioAReg (selectedName scenarioAReg
          (["info", "student"] ++ ("--" ++ "output") :: ["./x"])) = some scenarioACfg := by
        decide
      rw [he] at hc
      obtain rfl := Option.some.inj hc
      exact ⟨by decide, ⟨⟨"output", "o", false, false, "./", "", none⟩, by decide, by decide⟩⟩)

end Clapper
